import Mathlib

/-!
Verification of the Mastermind feedback-evaluation and solution-space engine.

The definitions below are a shallow embedding of the TypeScript sources:
`sortFeedback`, `evaluateGuess`, `filterSolutions`, `groupSolutionsByFeedback`
and `getEvilFeedback` from `src/utils/gameLogic.ts`, and the set-based
`SolutionService` (`applyGuessAndFeedback`, `getPossibleFeedbackPatterns`,
`processGuessSeries`) and `findOptimalGuesses` from the solution services.
Colors are modelled polymorphically (`α` with decidable equality); the
in-place markers `'used'`/`'checked'` used by `evaluateGuess` are modelled
as `none` in `List (Option α)`, which is faithful because the markers never
compare equal to a real color nor to each other in a reachable comparison.
JavaScript's `Array.prototype.sort` (stable) is modelled by
`List.insertionSort`, which is also stable for the comparators used here.
-/

namespace Mastermind

/-- Feedback peg values (`FeedbackPegValue` in `types/mastermind.ts`). -/
inductive Fb where
  | correct
  | wrongPosition
  | incorrect
  | empty
deriving DecidableEq, Repr, Fintype

/-- Number of occurrences of a feedback value in a feedback list. -/
def countFb (v : Fb) (l : List Fb) : Nat := l.count v

/-- `sortFeedback` from `gameLogic.ts`: concatenates the `correct`, then
`wrongPosition`, then `incorrect`, then `empty` entries. -/
def sortFeedback (feedback : List Fb) : List Fb :=
  feedback.filter (fun p => decide (p = Fb.correct)) ++
  feedback.filter (fun p => decide (p = Fb.wrongPosition)) ++
  feedback.filter (fun p => decide (p = Fb.incorrect)) ++
  feedback.filter (fun p => decide (p = Fb.empty))

/-- Rank of a feedback value in `sortFeedback`'s canonical order. -/
def rankCW : Fb → Nat
  | .correct => 0
  | .wrongPosition => 1
  | .incorrect => 2
  | .empty => 3

/-- The order `sortFeedback` sorts by. -/
def fbLE (a b : Fb) : Prop := rankCW a ≤ rankCW b

instance : DecidableRel fbLE := fun a b => Nat.decLe _ _

/-- Rank of a feedback value in JavaScript's default (string) sort order:
`"correct" < "empty" < "incorrect" < "wrongPosition"`. -/
def fbRankJS : Fb → Nat
  | .correct => 0
  | .empty => 1
  | .incorrect => 2
  | .wrongPosition => 3

/-- The order used by the JavaScript default `Array.prototype.sort()` on
feedback strings. -/
def fbLEJS (a b : Fb) : Prop := fbRankJS a ≤ fbRankJS b

instance : DecidableRel fbLEJS := fun a b => Nat.decLe _ _

instance : IsTotal Fb fbLE := ⟨fun a b => Nat.le_total (rankCW a) (rankCW b)⟩

instance : IsTrans Fb fbLE := ⟨fun _ _ _ h1 h2 => Nat.le_trans h1 h2⟩

instance : IsAntisymm Fb fbLE := ⟨by decide⟩

instance : IsTotal Fb fbLEJS := ⟨fun a b => Nat.le_total (fbRankJS a) (fbRankJS b)⟩

instance : IsTrans Fb fbLEJS := ⟨fun _ _ _ h1 h2 => Nat.le_trans h1 h2⟩

instance : IsAntisymm Fb fbLEJS := ⟨by decide⟩

/-- `feedback.sort()` with JavaScript's default string comparator, as used by
the service's `feedbackToString` and `areFeedbackEqual`. -/
def fbSortJS (l : List Fb) : List Fb := List.insertionSort fbLEJS l

/-- `areFeedbackEqual` from the set-based `SolutionService`: equal length and
equal once both are sorted with the default string sort. -/
def areFeedbackEqual (f1 f2 : List Fb) : Bool :=
  decide (f1.length = f2.length) && decide (fbSortJS f1 = fbSortJS f2)

variable {α : Type} [DecidableEq α]

/-- First pass of `evaluateGuess`: positional matches are counted as
`correct` and both entries are replaced by markers (`none`). -/
def pass1 : List α → List α → Nat × List (Option α) × List (Option α)
  | [], cs => (0, [], cs.map some)
  | g :: gs, [] =>
    let r := pass1 gs []
    (r.1, some g :: r.2.1, r.2.2)
  | g :: gs, c :: cs =>
    let r := pass1 gs cs
    if g = c then (r.1 + 1, none :: r.2.1, none :: r.2.2)
    else (r.1, some g :: r.2.1, some c :: r.2.2)

/-- `codeTemp.findIndex(c => c === g)` followed by consuming that entry:
returns the code list with the first unconsumed occurrence of `x` marked,
or `none` when there is no such occurrence. -/
def consumeFirst (x : α) : List (Option α) → Option (List (Option α))
  | [] => none
  | none :: rest => (consumeFirst x rest).map (fun l => none :: l)
  | some c :: rest =>
    if c = x then some (none :: rest)
    else (consumeFirst x rest).map (fun l => some c :: l)

/-- Second pass of `evaluateGuess`: each unconsumed guess symbol consumes the
first remaining occurrence of its value in the code (`wrongPosition`) or is
scored `incorrect`. -/
def pass2 : List (Option α) → List (Option α) → List Fb
  | [], _ => []
  | none :: gs, ct => pass2 gs ct
  | some g :: gs, ct =>
    match consumeFirst g ct with
    | some ct' => Fb.wrongPosition :: pass2 gs ct'
    | none => Fb.incorrect :: pass2 gs ct

/-- `evaluateGuess` from `gameLogic.ts`. -/
def evaluateGuess (guess code : List α) : List Fb :=
  let r := pass1 guess code
  sortFeedback (List.replicate r.1 Fb.correct ++ pass2 r.2.1 r.2.2)

/-- `filterSolutions` from `gameLogic.ts`: keeps the candidates whose
evaluated feedback has the same per-value counts as the given feedback. -/
def filterSolutions (solutions : List (List α)) (guess : List α)
    (feedback : List Fb) : List (List α) :=
  solutions.filter (fun solution =>
    let ev := evaluateGuess guess solution
    decide (countFb Fb.correct feedback = countFb Fb.correct ev) &&
    decide (countFb Fb.wrongPosition feedback = countFb Fb.wrongPosition ev) &&
    decide (countFb Fb.incorrect feedback = countFb Fb.incorrect ev) &&
    decide (countFb Fb.empty feedback = countFb Fb.empty ev))

/-- `SolutionGroup` from `types/mastermind.ts`. -/
structure SolutionGroup (α : Type) where
  feedback : List Fb
  solutions : List (List α)
  count : Nat
deriving DecidableEq, Repr

/-- One step of building the keyed group record/map: append the solution to
the group whose feedback equals the key, or create a new group at the end
(JavaScript objects and `Map`s iterate in insertion order). -/
def addToGroups (fb : List Fb) (sol : List α) :
    List (SolutionGroup α) → List (SolutionGroup α)
  | [] => [⟨fb, [sol], 1⟩]
  | g :: rest =>
    if g.feedback = fb then ⟨g.feedback, g.solutions ++ [sol], g.count + 1⟩ :: rest
    else g :: addToGroups fb sol rest

/-- Group a list of solutions by a feedback key function, in iteration
order. -/
def buildGroups (keyOf : List α → List Fb) (sols : List (List α)) :
    List (SolutionGroup α) :=
  sols.foldl (fun gs sol => addToGroups (keyOf sol) sol gs) []

/-- Descending-count comparison used by `groups.sort((a, b) => b.count - a.count)`. -/
def countGE (g h : SolutionGroup α) : Prop := h.count ≤ g.count

instance : DecidableRel (countGE (α := α)) := fun _ _ => Nat.decLe _ _

instance : IsTotal (SolutionGroup α) countGE :=
  ⟨fun a b => (Nat.le_total b.count a.count).imp id id⟩

instance : IsTrans (SolutionGroup α) countGE :=
  ⟨fun _ _ _ h1 h2 => Nat.le_trans h2 h1⟩

/-- `groupSolutionsByFeedback` from `gameLogic.ts`: bucket the solutions by
their (re-)sorted evaluated feedback, then stably sort the buckets by
descending count. -/
def groupSolutionsByFeedback (solutions : List (List α)) (guess : List α) :
    List (SolutionGroup α) :=
  List.insertionSort countGE
    (buildGroups (fun sol => sortFeedback (evaluateGuess guess sol)) solutions)

/-- `getEvilFeedback` from `gameLogic.ts`. -/
def getEvilFeedback (solutions : List (List α)) (guess : List α) :
    List Fb × List (List α) :=
  match groupSolutionsByFeedback solutions guess with
  | [] => (List.replicate guess.length Fb.incorrect, [])
  | g :: _ => (g.feedback, g.solutions)

/-- The set-based `SolutionService`: a de-duplicated, insertion-ordered
solution set together with the service's code length. -/
structure SolutionService (α : Type) where
  solutions : List (List α)
  codeLength : Nat
deriving DecidableEq, Repr

/-- `SolutionService.applyGuessAndFeedback`: `none` models the thrown
length-mismatch errors; otherwise keeps exactly the candidates whose
evaluated feedback is `areFeedbackEqual` to the (sorted) given feedback and
returns the new size. -/
def applyGuessAndFeedback (s : SolutionService α) (guess : List α)
    (feedback : List Fb) : Option (SolutionService α × Nat) :=
  if guess.length = s.codeLength ∧ feedback.length = s.codeLength then
    some (⟨s.solutions.filter (fun sol =>
        areFeedbackEqual (evaluateGuess guess sol) (sortFeedback feedback)),
        s.codeLength⟩,
      (s.solutions.filter (fun sol =>
        areFeedbackEqual (evaluateGuess guess sol) (sortFeedback feedback))).length)
  else none

/-- `SolutionService.getPossibleFeedbackPatterns`: groups the stored
solutions by the string-sorted evaluated feedback, in `Map` insertion
order (the stored feedback array is sorted in place by `feedbackToString`). -/
def getPossibleFeedbackPatterns (s : SolutionService α) (guess : List α) :
    Option (List (SolutionGroup α)) :=
  if guess.length = s.codeLength then
    some (buildGroups (fun sol => fbSortJS (evaluateGuess guess sol)) s.solutions)
  else none

/-- The loop body of `SolutionService.processGuessSeries`. Feedback
patterns are computed from `orig` (the service's stored `this.solutions`,
unchanged during the loop), while the filtering accumulates in `cur`
(`currentSolutions`). -/
def pgsLoop (orig : List (List α)) (cl : Nat) :
    List (List α) → List (List α) → List (List Fb) →
    Option (List (List α) × List (List Fb))
  | cur, [], _ => some (cur, [])
  | _, _ :: _, [] => none
  | cur, guess :: gs, response :: rs =>
    if guess.length = cl ∧ response.length = cl then
      let patterns := buildGroups (fun sol => fbSortJS (evaluateGuess guess sol)) orig
      let largest := patterns.foldl
        (fun m g => if m.count < g.count then g else m)
        (⟨[], [], 0⟩ : SolutionGroup α)
      let currentResponseGroup := patterns.find?
        (fun g => areFeedbackEqual g.feedback response)
      let optimal : List Fb :=
        match currentResponseGroup with
        | none => largest.feedback
        | some cg => if cg.count < largest.count then largest.feedback else response
      let cur' := cur.filter
        (fun sol => areFeedbackEqual (evaluateGuess guess sol) optimal)
      (pgsLoop orig cl cur' gs rs).map (fun p => (p.1, optimal :: p.2))
    else none

/-- `SolutionService.processGuessSeries`: validates the series, replays it
through the adversarial policy, stores the final filtered set, and returns
the chosen ("optimal") responses. -/
def processGuessSeries (s : SolutionService α) (guesses : List (List α))
    (responses : List (List Fb)) :
    Option (SolutionService α × List (List Fb)) :=
  if guesses.length = responses.length then
    (pgsLoop s.solutions s.codeLength s.solutions guesses responses).map
      (fun p => (⟨p.1, s.codeLength⟩, p.2))
  else none

/-- The reference process stated by the specification for `processSeries`:
starting from the initial set, each round partitions the *current* set by
that round's guess and keeps the largest bucket (first-encountered bucket
on ties, matching the code's `reduce`). -/
def specLargestBucketReplay : List (List α) → List (List α) → List (List α)
  | cur, [] => cur
  | cur, guess :: gs =>
    let patterns := buildGroups (fun sol => fbSortJS (evaluateGuess guess sol)) cur
    let largest := patterns.foldl
      (fun m g => if m.count < g.count then g else m)
      (⟨[], [], 0⟩ : SolutionGroup α)
    specLargestBucketReplay largest.solutions gs

/-- Peg colors (`PegColor` in `types/mastermind.ts`). -/
inductive PegColor where
  | red
  | blue
  | green
  | yellow
  | purple
  | orange
  | empty
deriving DecidableEq, Repr

/-- Entry of `SolutionService.findOptimalGuesses`' result. -/
structure OptimalGuess where
  guess : List PegColor
  maxGroupSize : Nat
  distribution : List (List Fb × Nat)
deriving DecidableEq, Repr

/-- `distribution[feedbackKey] = (distribution[feedbackKey] || 0) + 1`,
with object keys in insertion order. -/
def bumpDist (fb : List Fb) : List (List Fb × Nat) → List (List Fb × Nat)
  | [] => [(fb, 1)]
  | (k, n) :: rest =>
    if k = fb then (k, n + 1) :: rest else (k, n) :: bumpDist fb rest

/-- `distribution[feedbackKey]` lookup (0 when absent). -/
def lookupDist (fb : List Fb) : List (List Fb × Nat) → Nat
  | [] => 0
  | (k, n) :: rest => if k = fb then n else lookupDist fb rest

/-- One iteration of `findOptimalGuesses`' inner loop over the solutions. -/
def distStep (candidateGuess : List PegColor)
    (acc : List (List Fb × Nat) × Nat) (sol : List PegColor) :
    List (List Fb × Nat) × Nat :=
  let fb := evaluateGuess candidateGuess sol
  let d := bumpDist fb acc.1
  (d, max acc.2 (lookupDist fb d))

/-- Evaluate one candidate guess: its feedback distribution over the whole
solution list and the resulting maximum group size. -/
def evalCandidate (possibleSolutions : List (List PegColor))
    (candidateGuess : List PegColor) : OptimalGuess :=
  let p := possibleSolutions.foldl (distStep candidateGuess) ([], 0)
  ⟨candidateGuess, p.2, p.1⟩

/-- The hardcoded standard first guesses returned when the solution list is
empty. -/
def defaultOptimalGuesses : List OptimalGuess :=
  [⟨[.red, .red, .blue, .blue], 256, []⟩,
   ⟨[.red, .green, .blue, .yellow], 256, []⟩,
   ⟨[.red, .yellow, .red, .yellow], 256, []⟩]

/-- Ascending comparison on `maxGroupSize` used by
`sort((a, b) => a.maxGroupSize - b.maxGroupSize)`. -/
def maxSizeLE (a b : OptimalGuess) : Prop := a.maxGroupSize ≤ b.maxGroupSize

instance : DecidableRel maxSizeLE := fun _ _ => Nat.decLe _ _

instance : IsTotal OptimalGuess maxSizeLE :=
  ⟨fun a b => Nat.le_total a.maxGroupSize b.maxGroupSize⟩

instance : IsTrans OptimalGuess maxSizeLE :=
  ⟨fun _ _ _ h1 h2 => Nat.le_trans h1 h2⟩

/-- `SolutionService.findOptimalGuesses` (first solution service). -/
def findOptimalGuesses (possibleSolutions : List (List PegColor))
    (maxResults : Nat) : List OptimalGuess :=
  if possibleSolutions.length = 0 then defaultOptimalGuesses
  else
    (List.insertionSort maxSizeLE
      ((if possibleSolutions.length ≤ 25 then possibleSolutions
        else possibleSolutions.take 25).map
        (evalCandidate possibleSolutions))).take maxResults

/-- The full two-color solution universe of code length 2 over `{red, green}`,
in the enumeration order of `generateAllPossibleCodes`. -/
def universeRG : List (List PegColor) :=
  [[.red, .red], [.red, .green], [.green, .red], [.green, .green]]

/-- Number of unconsumed (non-marker) entries. -/
def someCount (l : List (Option α)) : Nat := (l.filterMap id).length

/-- Multiset of unconsumed values. -/
def somesM (l : List (Option α)) : Multiset α := ((l.filterMap id : List α) : Multiset α)

/-! ### Counting and sorting lemmas -/

lemma count_filter_fb (v a : Fb) (l : List Fb) :
    List.count a (l.filter fun p => decide (p = v)) =
      if a = v then List.count a l else 0 := by
  induction l with
  | nil => simp
  | cons x xs ih =>
    by_cases hxv : x = v
    · subst hxv
      by_cases hax : a = x
      · subst hax
        simp [List.filter_cons, List.count_cons, ih]
      · simp [List.filter_cons, List.count_cons, hax, ih]
    · by_cases hax : a = v
      · subst hax
        have hxa : ¬x = a := hxv
        have hax2 : ¬a = x := fun h => hxa h.symm
        simp [List.filter_cons, hxv, List.count_cons, ih, hax2]
      · simp [List.filter_cons, hxv, ih, hax]

lemma sortFeedback_perm (l : List Fb) : (sortFeedback l).Perm l := by
  rw [List.perm_iff_count]
  intro a
  rcases a <;>
    simp [sortFeedback, List.count_append, count_filter_fb]

lemma mem_filter_fb {v x : Fb} {l : List Fb}
    (h : x ∈ l.filter fun p => decide (p = v)) : x = v := by
  simp only [List.mem_filter, decide_eq_true_eq] at h
  exact h.2

lemma pairwise_fbLE_of_const {v : Fb} {l' : List Fb} (h : ∀ x ∈ l', x = v) :
    l'.Pairwise fbLE := by
  induction l' with
  | nil => exact .nil
  | cons x xs ih =>
    refine .cons (fun y hy => ?_) (ih fun y hy => h y (List.mem_cons_of_mem _ hy))
    rw [h x (List.mem_cons_self _ _), h y (List.mem_cons_of_mem _ hy)]
    exact Nat.le_refl _

lemma sortFeedback_sorted (l : List Fb) : (sortFeedback l).Pairwise fbLE := by
  unfold sortFeedback
  rw [List.pairwise_append, List.pairwise_append, List.pairwise_append]
  refine ⟨⟨⟨pairwise_fbLE_of_const fun x hx => mem_filter_fb hx,
      pairwise_fbLE_of_const fun x hx => mem_filter_fb hx, ?_⟩,
    pairwise_fbLE_of_const fun x hx => mem_filter_fb hx, ?_⟩,
    pairwise_fbLE_of_const fun x hx => mem_filter_fb hx, ?_⟩
  · intro a ha b hb
    rw [mem_filter_fb ha, mem_filter_fb hb]
    decide
  · intro a ha b hb
    rw [mem_filter_fb hb]
    rcases List.mem_append.1 ha with ha | ha
    · rw [mem_filter_fb ha]; decide
    · rw [mem_filter_fb ha]; decide
  · intro a ha b hb
    rw [mem_filter_fb hb]
    rcases List.mem_append.1 ha with ha | ha
    · rcases List.mem_append.1 ha with ha | ha
      · rw [mem_filter_fb ha]; decide
      · rw [mem_filter_fb ha]; decide
    · rw [mem_filter_fb ha]; decide

/-- `sortFeedback` is determined by the per-value counts. -/
lemma sortFeedback_eq_of_count {f1 f2 : List Fb}
    (h : ∀ a, List.count a f1 = List.count a f2) :
    sortFeedback f1 = sortFeedback f2 :=
  List.eq_of_perm_of_sorted
    ((sortFeedback_perm f1).trans ((List.perm_iff_count.2 h).trans
      (sortFeedback_perm f2).symm))
    (sortFeedback_sorted f1) (sortFeedback_sorted f2)

lemma fbSortJS_perm (l : List Fb) : (fbSortJS l).Perm l := List.perm_insertionSort _ l

lemma areFeedbackEqual_iff (f1 f2 : List Fb) :
    areFeedbackEqual f1 f2 = true ↔ ∀ a, List.count a f1 = List.count a f2 := by
  unfold areFeedbackEqual
  rw [Bool.and_eq_true, decide_eq_true_eq, decide_eq_true_eq]
  constructor
  · rintro ⟨_, hs⟩ a
    calc List.count a f1 = List.count a (fbSortJS f1) :=
          ((fbSortJS_perm f1).count_eq a).symm
      _ = List.count a (fbSortJS f2) := by rw [hs]
      _ = List.count a f2 := (fbSortJS_perm f2).count_eq a
  · intro h
    have hp : f1.Perm f2 := List.perm_iff_count.2 h
    refine ⟨hp.length_eq, ?_⟩
    exact List.eq_of_perm_of_sorted
      ((fbSortJS_perm f1).trans (hp.trans (fbSortJS_perm f2).symm))
      (List.sorted_insertionSort _ f1) (List.sorted_insertionSort _ f2)

lemma total_count_fb (l : List Fb) :
    List.count Fb.correct l + List.count Fb.wrongPosition l +
      List.count Fb.incorrect l + List.count Fb.empty l = l.length := by
  induction l with
  | nil => simp
  | cons x xs ih => rcases x <;> simp [List.count_cons] <;> omega

/-! ### Lemmas about the two evaluation passes -/

lemma someCount_nil : someCount ([] : List (Option α)) = 0 := rfl

lemma someCount_cons_none (l : List (Option α)) :
    someCount (none :: l) = someCount l := by
  simp [someCount]

lemma someCount_cons_some (c : α) (l : List (Option α)) :
    someCount (some c :: l) = someCount l + 1 := by
  simp [someCount, List.filterMap_cons]

lemma somesM_nil : somesM ([] : List (Option α)) = 0 := rfl

lemma somesM_cons_none (l : List (Option α)) : somesM (none :: l) = somesM l := by
  simp [somesM]

lemma somesM_cons_some (c : α) (l : List (Option α)) :
    somesM (some c :: l) = c ::ₘ somesM l := by
  simp [somesM, List.filterMap_cons]

lemma pass1_nil_right (l : List α) : pass1 l [] = (0, l.map some, []) := by
  induction l with
  | nil => rfl
  | cons g gs ih => simp [pass1, ih]

lemma pass1_swap (a : List α) : ∀ b : List α,
    pass1 b a = ((pass1 a b).1, (pass1 a b).2.2, (pass1 a b).2.1) := by
  induction a with
  | nil => intro b; simp [pass1, pass1_nil_right]
  | cons c cs ih =>
    intro b
    cases b with
    | nil => simp [pass1, pass1_nil_right]
    | cons g gs =>
      by_cases h : g = c
      · simp [pass1, h, ih gs]
      · have h' : ¬c = g := fun hh => h hh.symm
        simp [pass1, h, h', ih gs]

lemma pass1_self (c : List α) :
    pass1 c c = (c.length, List.replicate c.length none,
      List.replicate c.length none) := by
  induction c with
  | nil => rfl
  | cons x xs ih => simp [pass1, ih, List.replicate_succ]

lemma pass1_n_someCount (a : List α) : ∀ b : List α,
    (pass1 a b).1 + someCount (pass1 a b).2.1 = a.length := by
  induction a with
  | nil => intro b; simp [pass1, someCount]
  | cons g gs ih =>
    intro b
    cases b with
    | nil =>
      have := ih []
      simp [pass1, someCount_cons_some]
      omega
    | cons c cs =>
      by_cases h : g = c
      · have := ih cs
        simp [pass1, h, someCount_cons_none]
        omega
      · have := ih cs
        simp [pass1, h, someCount_cons_some]
        omega

lemma pass1_someCount_eq (a : List α) : ∀ b : List α, a.length = b.length →
    someCount (pass1 a b).2.1 = someCount (pass1 a b).2.2 := by
  induction a with
  | nil =>
    intro b hb
    cases b with
    | nil => rfl
    | cons c cs => simp at hb
  | cons g gs ih =>
    intro b hb
    cases b with
    | nil => simp at hb
    | cons c cs =>
      have hlen : gs.length = cs.length := by simpa using hb
      by_cases h : g = c
      · simp [pass1, h, someCount_cons_none, ih cs hlen]
      · simp [pass1, h, someCount_cons_some, ih cs hlen]

lemma consumeFirst_none_spec {x : α} : ∀ {ct : List (Option α)},
    consumeFirst x ct = none → x ∉ somesM ct := by
  intro ct
  induction ct with
  | nil => intro _; simp [somesM_nil]
  | cons o rest ih =>
    intro h
    cases o with
    | none =>
      rw [somesM_cons_none]
      refine ih ?_
      by_cases hr : consumeFirst x rest = none
      · exact hr
      · exfalso
        obtain ⟨l', hl'⟩ := Option.ne_none_iff_exists'.1 hr
        simp [consumeFirst, hl'] at h
    | some c =>
      rw [somesM_cons_some]
      by_cases hc : c = x
      · simp [consumeFirst, hc] at h
      · intro hmem
        rcases Multiset.mem_cons.1 hmem with hx | hx
        · exact hc hx.symm
        · refine ih ?_ hx
          by_cases hr : consumeFirst x rest = none
          · exact hr
          · exfalso
            obtain ⟨l', hl'⟩ := Option.ne_none_iff_exists'.1 hr
            simp [consumeFirst, hc, hl'] at h

lemma consumeFirst_some_spec {x : α} : ∀ {ct ct' : List (Option α)},
    consumeFirst x ct = some ct' →
    x ∈ somesM ct ∧ somesM ct' = (somesM ct).erase x := by
  intro ct
  induction ct with
  | nil => intro ct' h; simp [consumeFirst] at h
  | cons o rest ih =>
    intro ct' h
    cases o with
    | none =>
      rcases hr : consumeFirst x rest with _ | l'
      · simp [consumeFirst, hr] at h
      · obtain ⟨hmem, herase⟩ := ih hr
        simp only [consumeFirst, hr, Option.map_some', Option.some.injEq] at h
        subst h
        rw [somesM_cons_none, somesM_cons_none]
        exact ⟨hmem, herase⟩
    | some c =>
      by_cases hc : c = x
      · simp only [consumeFirst, if_pos hc, Option.some.injEq] at h
        subst h
        subst hc
        rw [somesM_cons_none, somesM_cons_some]
        exact ⟨Multiset.mem_cons_self _ _, (Multiset.erase_cons_head _ _).symm⟩
      · rcases hr : consumeFirst x rest with _ | l'
        · simp [consumeFirst, hc, hr] at h
        · obtain ⟨hmem, herase⟩ := ih hr
          simp only [consumeFirst, if_neg hc, hr, Option.map_some',
            Option.some.injEq] at h
          subst h
          rw [somesM_cons_some, somesM_cons_some]
          constructor
          · exact Multiset.mem_cons_of_mem hmem
          · rw [Multiset.erase_cons_tail_of_mem hmem, herase]

lemma pass2_mem {f : Fb} : ∀ {gt ct : List (Option α)}, f ∈ pass2 gt ct →
    f = Fb.wrongPosition ∨ f = Fb.incorrect := by
  intro gt
  induction gt with
  | nil => intro ct h; simp [pass2] at h
  | cons o gs ih =>
    intro ct h
    cases o with
    | none => exact ih (by simpa [pass2] using h)
    | some g =>
      rcases hr : consumeFirst g ct with _ | ct'
      · simp only [pass2, hr, List.mem_cons] at h
        rcases h with h | h
        · exact Or.inr h
        · exact ih h
      · simp only [pass2, hr, List.mem_cons] at h
        rcases h with h | h
        · exact Or.inl h
        · exact ih h

lemma pass2_length : ∀ (gt : List (Option α)) (ct : List (Option α)),
    (pass2 gt ct).length = someCount gt := by
  intro gt
  induction gt with
  | nil => intro ct; simp [pass2, someCount]
  | cons o gs ih =>
    intro ct
    cases o with
    | none => simp [pass2, someCount_cons_none, ih]
    | some g =>
      rcases hr : consumeFirst g ct with _ | ct' <;>
        simp [pass2, hr, someCount_cons_some, ih]

lemma pass2_count_w : ∀ (gt : List (Option α)) (ct : List (Option α)),
    List.count Fb.wrongPosition (pass2 gt ct) =
      Multiset.card (somesM gt ∩ somesM ct) := by
  intro gt
  induction gt with
  | nil => intro ct; simp [pass2, somesM_nil]
  | cons o gs ih =>
    intro ct
    cases o with
    | none => simp [pass2, somesM_cons_none, ih]
    | some g =>
      rcases hr : consumeFirst g ct with _ | ct'
      · have hnm := consumeFirst_none_spec hr
        rw [somesM_cons_some, Multiset.cons_inter_of_neg _ hnm]
        simp [pass2, hr, List.count_cons, ih]
      · obtain ⟨hmem, herase⟩ := consumeFirst_some_spec hr
        rw [somesM_cons_some, Multiset.cons_inter_of_pos _ hmem]
        simp [pass2, hr, List.count_cons, ih, herase]

lemma count_wi_of_mem : ∀ (l : List Fb),
    (∀ f ∈ l, f = Fb.wrongPosition ∨ f = Fb.incorrect) →
    List.count Fb.wrongPosition l + List.count Fb.incorrect l = l.length := by
  intro l
  induction l with
  | nil => simp
  | cons x xs ih =>
    intro h
    have hx := h x (List.mem_cons_self _ _)
    have hxs : ∀ f ∈ xs, f = Fb.wrongPosition ∨ f = Fb.incorrect :=
      fun f hf => h f (List.mem_cons_of_mem _ hf)
    have hih := ih hxs
    rcases hx with hx | hx <;> subst hx <;>
      simp [List.count_cons] <;> omega

lemma pass2_count_correct (gt ct : List (Option α)) :
    List.count Fb.correct (pass2 gt ct) = 0 := by
  rw [List.count_eq_zero]
  intro hmem
  rcases pass2_mem hmem with h | h <;> simp at h

lemma pass2_count_empty (gt ct : List (Option α)) :
    List.count Fb.empty (pass2 gt ct) = 0 := by
  rw [List.count_eq_zero]
  intro hmem
  rcases pass2_mem hmem with h | h <;> simp at h

/-! ### Count characterization of `evaluateGuess` -/

lemma evaluateGuess_def (guess code : List α) :
    evaluateGuess guess code =
      sortFeedback (List.replicate (pass1 guess code).1 Fb.correct ++
        pass2 (pass1 guess code).2.1 (pass1 guess code).2.2) := rfl

lemma count_evaluateGuess_correct (guess code : List α) :
    List.count Fb.correct (evaluateGuess guess code) = (pass1 guess code).1 := by
  rw [evaluateGuess_def, (sortFeedback_perm _).count_eq, List.count_append,
    pass2_count_correct, List.count_replicate]
  simp

lemma count_evaluateGuess_w (guess code : List α) :
    List.count Fb.wrongPosition (evaluateGuess guess code) =
      Multiset.card (somesM (pass1 guess code).2.1 ∩
        somesM (pass1 guess code).2.2) := by
  rw [evaluateGuess_def, (sortFeedback_perm _).count_eq, List.count_append,
    pass2_count_w, List.count_replicate]
  simp

lemma count_evaluateGuess_w_add_i (guess code : List α) :
    List.count Fb.wrongPosition (evaluateGuess guess code) +
      List.count Fb.incorrect (evaluateGuess guess code) =
      someCount (pass1 guess code).2.1 := by
  rw [evaluateGuess_def, (sortFeedback_perm _).count_eq,
    (sortFeedback_perm _).count_eq, List.count_append, List.count_append]
  have hrw : List.count Fb.wrongPosition
      (List.replicate (pass1 guess code).1 Fb.correct) = 0 := by
    simp [List.count_replicate]
  have hri : List.count Fb.incorrect
      (List.replicate (pass1 guess code).1 Fb.correct) = 0 := by
    simp [List.count_replicate]
  have hsum := count_wi_of_mem
    (pass2 (pass1 guess code).2.1 (pass1 guess code).2.2)
    (fun f hf => pass2_mem hf)
  rw [pass2_length] at hsum
  omega

lemma count_evaluateGuess_empty (guess code : List α) :
    List.count Fb.empty (evaluateGuess guess code) = 0 := by
  rw [evaluateGuess_def, (sortFeedback_perm _).count_eq, List.count_append,
    pass2_count_empty, List.count_replicate]
  simp

lemma evaluateGuess_mem {p : Fb} {guess code : List α}
    (h : p ∈ evaluateGuess guess code) :
    p = Fb.correct ∨ p = Fb.wrongPosition ∨ p = Fb.incorrect := by
  rw [evaluateGuess_def, (sortFeedback_perm _).mem_iff, List.mem_append] at h
  rcases h with h | h
  · exact Or.inl (List.eq_of_mem_replicate h)
  · exact Or.inr (pass2_mem h)

lemma evaluateGuess_counts_sum (guess code : List α) :
    List.count Fb.correct (evaluateGuess guess code) +
      List.count Fb.wrongPosition (evaluateGuess guess code) +
      List.count Fb.incorrect (evaluateGuess guess code) = guess.length := by
  have h1 := count_evaluateGuess_correct guess code
  have h2 := count_evaluateGuess_w_add_i guess code
  have h3 := pass1_n_someCount guess code
  omega

lemma evaluateGuess_length (guess code : List α) :
    (evaluateGuess guess code).length = guess.length := by
  have h1 := evaluateGuess_counts_sum guess code
  have h2 := count_evaluateGuess_empty guess code
  have h3 := total_count_fb (evaluateGuess guess code)
  omega

lemma count_evaluateGuess_symm (a b : List α) (h : a.length = b.length) :
    ∀ v, List.count v (evaluateGuess a b) = List.count v (evaluateGuess b a) := by
  have hswap := pass1_swap a b
  intro v
  rcases v with _ | _ | _ | _
  · rw [count_evaluateGuess_correct, count_evaluateGuess_correct, hswap]
  · rw [count_evaluateGuess_w, count_evaluateGuess_w, hswap]
    exact congrArg Multiset.card (Multiset.inter_comm _ _)
  · have h1 := count_evaluateGuess_w_add_i a b
    have h2 := count_evaluateGuess_w_add_i b a
    have h3 : List.count Fb.wrongPosition (evaluateGuess a b) =
        List.count Fb.wrongPosition (evaluateGuess b a) := by
      rw [count_evaluateGuess_w, count_evaluateGuess_w, hswap]
      exact congrArg Multiset.card (Multiset.inter_comm _ _)
    have h4 : someCount (pass1 b a).2.1 = someCount (pass1 a b).2.1 := by
      rw [hswap]
      exact (pass1_someCount_eq a b h).symm
    omega
  · rw [count_evaluateGuess_empty, count_evaluateGuess_empty]

lemma evaluateGuess_symm (a b : List α) (h : a.length = b.length) :
    evaluateGuess a b = evaluateGuess b a := by
  have hc := count_evaluateGuess_symm a b h
  have h1 : evaluateGuess a b = sortFeedback (evaluateGuess a b) :=
    (List.eq_of_perm_of_sorted (sortFeedback_perm _)
      (sortFeedback_sorted _) (by rw [evaluateGuess_def]; exact sortFeedback_sorted _)).symm
  have h2 : evaluateGuess b a = sortFeedback (evaluateGuess b a) :=
    (List.eq_of_perm_of_sorted (sortFeedback_perm _)
      (sortFeedback_sorted _) (by rw [evaluateGuess_def]; exact sortFeedback_sorted _)).symm
  rw [h1, h2]
  exact sortFeedback_eq_of_count hc

lemma pass2_replicate_none (n : Nat) (ct : List (Option α)) :
    pass2 (List.replicate n (none : Option α)) ct = [] := by
  induction n with
  | zero => rfl
  | succ m ih => simp [List.replicate_succ, pass2, ih]

lemma sortFeedback_replicate_correct (n : Nat) :
    sortFeedback (List.replicate n Fb.correct) = List.replicate n Fb.correct := by
  induction n with
  | zero => rfl
  | succ m ih =>
    rw [List.replicate_succ]
    simp only [sortFeedback, List.filter_cons] at ih ⊢
    simpa using ih

lemma evaluateGuess_self (c : List α) :
    evaluateGuess c c = List.replicate c.length Fb.correct := by
  rw [evaluateGuess_def, pass1_self]
  simp [pass2_replicate_none, sortFeedback_replicate_correct]

/-! ### Claim theorems about the evaluator -/

/-- C3: for every guess and candidate code of equal length, the histogram
produced by `evaluateGuess` satisfies
`correct + wrongPosition + incorrect = codeLength`; equivalently the
returned feedback list has exactly `codeLength` entries, each of which is
`correct`, `wrongPosition`, or `incorrect`. -/
theorem evaluateGuess_histogram_sums_to_codeLength (guess code : List α)
    (h : guess.length = code.length) :
    countFb Fb.correct (evaluateGuess guess code) +
      countFb Fb.wrongPosition (evaluateGuess guess code) +
      countFb Fb.incorrect (evaluateGuess guess code) = code.length ∧
    (evaluateGuess guess code).length = code.length ∧
    ∀ p ∈ evaluateGuess guess code,
      p = Fb.correct ∨ p = Fb.wrongPosition ∨ p = Fb.incorrect := by
  refine ⟨?_, ?_, fun p hp => evaluateGuess_mem hp⟩
  · have := evaluateGuess_counts_sum guess code
    unfold countFb
    omega
  · rw [evaluateGuess_length, h]

/-- Witness for C3 at the specification's scenario A: guess `AABB` against
candidate `ABCD` (colors renamed to red/blue/green/yellow). -/
theorem evaluateGuess_histogram_sums_to_codeLength_witness :
    ([PegColor.red, PegColor.red, PegColor.blue, PegColor.blue].length =
      [PegColor.red, PegColor.blue, PegColor.green, PegColor.yellow].length) ∧
    (countFb Fb.correct (evaluateGuess
        [PegColor.red, PegColor.red, PegColor.blue, PegColor.blue]
        [PegColor.red, PegColor.blue, PegColor.green, PegColor.yellow]) +
      countFb Fb.wrongPosition (evaluateGuess
        [PegColor.red, PegColor.red, PegColor.blue, PegColor.blue]
        [PegColor.red, PegColor.blue, PegColor.green, PegColor.yellow]) +
      countFb Fb.incorrect (evaluateGuess
        [PegColor.red, PegColor.red, PegColor.blue, PegColor.blue]
        [PegColor.red, PegColor.blue, PegColor.green, PegColor.yellow]) =
      [PegColor.red, PegColor.blue, PegColor.green, PegColor.yellow].length ∧
    (evaluateGuess [PegColor.red, PegColor.red, PegColor.blue, PegColor.blue]
        [PegColor.red, PegColor.blue, PegColor.green, PegColor.yellow]).length =
      [PegColor.red, PegColor.blue, PegColor.green, PegColor.yellow].length ∧
    ∀ p ∈ evaluateGuess [PegColor.red, PegColor.red, PegColor.blue, PegColor.blue]
        [PegColor.red, PegColor.blue, PegColor.green, PegColor.yellow],
      p = Fb.correct ∨ p = Fb.wrongPosition ∨ p = Fb.incorrect) :=
  ⟨rfl, evaluateGuess_histogram_sums_to_codeLength
    [PegColor.red, PegColor.red, PegColor.blue, PegColor.blue]
    [PegColor.red, PegColor.blue, PegColor.green, PegColor.yellow] rfl⟩

/-- C4: `evaluateGuess` is symmetric for equal-length codes (swapping the
arguments yields the identical feedback list, hence identical counts), and
evaluating a code against itself yields the all-`correct` histogram
`{correct: codeLength, wrongPosition: 0, incorrect: 0}`. -/
theorem evaluateGuess_symmetric_and_self_correct :
    (∀ a b : List α, a.length = b.length →
      evaluateGuess a b = evaluateGuess b a) ∧
    (∀ c : List α, evaluateGuess c c = List.replicate c.length Fb.correct ∧
      countFb Fb.correct (evaluateGuess c c) = c.length ∧
      countFb Fb.wrongPosition (evaluateGuess c c) = 0 ∧
      countFb Fb.incorrect (evaluateGuess c c) = 0) := by
  refine ⟨fun a b h => evaluateGuess_symm a b h, fun c => ⟨evaluateGuess_self c, ?_, ?_, ?_⟩⟩ <;>
    rw [countFb, evaluateGuess_self, List.count_replicate] <;> simp

/-- Witness for C4: symmetry at a concrete pair of equal-length codes. -/
theorem evaluateGuess_symmetric_and_self_correct_witness :
    ([PegColor.red, PegColor.blue].length =
      [PegColor.green, PegColor.red].length) ∧
    evaluateGuess [PegColor.red, PegColor.blue] [PegColor.green, PegColor.red] =
      evaluateGuess [PegColor.green, PegColor.red] [PegColor.red, PegColor.blue] :=
  ⟨rfl, (evaluateGuess_symmetric_and_self_correct (α := PegColor)).1
    [PegColor.red, PegColor.blue] [PegColor.green, PegColor.red] rfl⟩

/-- C10 (implicit): the feedback list returned by `evaluateGuess` is always
in the canonical order sorted by `rankCW` — every `correct` entry precedes
every `wrongPosition` entry, which precedes every `incorrect` entry — so
the list carries no positional information. -/
theorem evaluateGuess_canonically_sorted (guess code : List α) :
    (evaluateGuess guess code).Pairwise fbLE := by
  rw [evaluateGuess_def]
  exact sortFeedback_sorted _

/-! ### Lemmas about the grouping fold -/

lemma addToGroups_ne_nil (fb : List Fb) (sol : List α)
    (gs : List (SolutionGroup α)) : addToGroups fb sol gs ≠ [] := by
  cases gs with
  | nil => simp [addToGroups]
  | cons g rest =>
    rw [addToGroups]
    split <;> simp

lemma addToGroups_count_sum (fb : List Fb) (sol : List α)
    (gs : List (SolutionGroup α)) :
    ((addToGroups fb sol gs).map SolutionGroup.count).sum =
      (gs.map SolutionGroup.count).sum + 1 := by
  induction gs with
  | nil => simp [addToGroups]
  | cons g rest ih =>
    rw [addToGroups]
    split
    · simp
      omega
    · simp [ih]
      omega

lemma addToGroups_flatten_perm (fb : List Fb) (sol : List α)
    (gs : List (SolutionGroup α)) :
    ((addToGroups fb sol gs).map SolutionGroup.solutions).flatten.Perm
      ((gs.map SolutionGroup.solutions).flatten ++ [sol]) := by
  induction gs with
  | nil => simp [addToGroups]
  | cons g rest ih =>
    rw [addToGroups]
    split
    · simp only [List.map_cons, List.flatten_cons, List.append_assoc]
      exact List.Perm.append_left _ (List.perm_append_singleton _ _).symm
    · simp only [List.map_cons, List.flatten_cons, List.append_assoc]
      exact List.Perm.append_left _ ih

lemma addToGroups_preserves_key (keyOf : List α → List Fb) {fb : List Fb}
    {sol : List α} {gs : List (SolutionGroup α)}
    (hgs : ∀ g ∈ gs, ∀ c ∈ g.solutions, keyOf c = g.feedback)
    (hk : keyOf sol = fb) :
    ∀ g ∈ addToGroups fb sol gs, ∀ c ∈ g.solutions, keyOf c = g.feedback := by
  induction gs with
  | nil =>
    intro g hg c hc
    simp [addToGroups] at hg
    subst hg
    simp at hc
    subst hc
    exact hk
  | cons g0 rest ih =>
    intro g hg c hc
    rw [addToGroups] at hg
    split at hg
    · rcases List.mem_cons.1 hg with hg | hg
      · subst hg
        rcases List.mem_append.1 hc with hc | hc
        · exact hgs g0 (List.mem_cons_self _ _) c hc
        · simp at hc
          subst hc
          rename_i hmatch
          rw [hk]
          exact hmatch.symm ▸ rfl
      · exact hgs g (List.mem_cons_of_mem _ hg) c hc
    · rcases List.mem_cons.1 hg with hg | hg
      · subst hg
        exact hgs g (List.mem_cons_self _ _) c hc
      · exact ih (fun g' hg' => hgs g' (List.mem_cons_of_mem _ hg')) g hg c hc

lemma addToGroups_feedback_mem {fb : List Fb} {sol : List α}
    {gs : List (SolutionGroup α)} :
    ∀ g ∈ addToGroups fb sol gs,
      g.feedback ∈ gs.map SolutionGroup.feedback ∨ g.feedback = fb := by
  induction gs with
  | nil =>
    intro g hg
    simp [addToGroups] at hg
    subst hg
    exact Or.inr rfl
  | cons g0 rest ih =>
    intro g hg
    rw [addToGroups] at hg
    split at hg
    · rcases List.mem_cons.1 hg with hg | hg
      · subst hg
        exact Or.inl (by simp)
      · exact Or.inl (by simp [List.mem_map]; exact Or.inr ⟨g, hg, rfl⟩)
    · rcases List.mem_cons.1 hg with hg | hg
      · subst hg
        exact Or.inl (by simp)
      · rcases ih g hg with h | h
        · exact Or.inl (by simp [List.mem_map] at h ⊢; exact Or.inr h)
        · exact Or.inr h

lemma addToGroups_pairwise_ne {fb : List Fb} {sol : List α}
    {gs : List (SolutionGroup α)}
    (h : gs.Pairwise (fun g g' => g.feedback ≠ g'.feedback)) :
    (addToGroups fb sol gs).Pairwise (fun g g' => g.feedback ≠ g'.feedback) := by
  induction gs with
  | nil => simp [addToGroups]
  | cons g0 rest ih =>
    rw [addToGroups]
    rw [List.pairwise_cons] at h
    split
    · exact List.pairwise_cons.2 ⟨h.1, h.2⟩
    · refine List.pairwise_cons.2 ⟨?_, ih h.2⟩
      intro g' hg'
      rcases addToGroups_feedback_mem g' hg' with hm | hm
      · rcases List.mem_map.1 hm with ⟨g'', hg'', hfb⟩
        rw [← hfb]
        exact h.1 g'' hg''
      · rw [hm]
        rename_i hne
        exact hne

lemma addToGroups_sol_ne_nil {fb : List Fb} {sol : List α}
    {gs : List (SolutionGroup α)}
    (h : ∀ g ∈ gs, g.solutions ≠ [] ∧ g.count = g.solutions.length) :
    ∀ g ∈ addToGroups fb sol gs,
      g.solutions ≠ [] ∧ g.count = g.solutions.length := by
  induction gs with
  | nil =>
    intro g hg
    simp [addToGroups] at hg
    subst hg
    simp
  | cons g0 rest ih =>
    intro g hg
    rw [addToGroups] at hg
    split at hg
    · rcases List.mem_cons.1 hg with hg | hg
      · subst hg
        have h0 := h g0 (List.mem_cons_self _ _)
        constructor
        · simp
        · simp [h0.2]
      · exact h g (List.mem_cons_of_mem _ hg)
    · rcases List.mem_cons.1 hg with hg | hg
      · subst hg
        exact h g (List.mem_cons_self _ _)
      · exact ih (fun g' hg' => h g' (List.mem_cons_of_mem _ hg')) g hg

/-- Combined invariants of the grouping fold, generalized over the
accumulator. -/
lemma foldl_addToGroups_invariants (keyOf : List α → List Fb) :
    ∀ (sols : List (List α)) (acc : List (SolutionGroup α)),
    (∀ g ∈ acc, ∀ c ∈ g.solutions, keyOf c = g.feedback) →
    acc.Pairwise (fun g g' => g.feedback ≠ g'.feedback) →
    (∀ g ∈ acc, g.solutions ≠ [] ∧ g.count = g.solutions.length) →
    (∀ g ∈ sols.foldl (fun gs sol => addToGroups (keyOf sol) sol gs) acc,
        ∀ c ∈ g.solutions, keyOf c = g.feedback) ∧
    (sols.foldl (fun gs sol => addToGroups (keyOf sol) sol gs) acc).Pairwise
        (fun g g' => g.feedback ≠ g'.feedback) ∧
    (∀ g ∈ sols.foldl (fun gs sol => addToGroups (keyOf sol) sol gs) acc,
        g.solutions ≠ [] ∧ g.count = g.solutions.length) ∧
    ((sols.foldl (fun gs sol => addToGroups (keyOf sol) sol gs) acc).map
        SolutionGroup.count).sum =
      (acc.map SolutionGroup.count).sum + sols.length ∧
    ((sols.foldl (fun gs sol => addToGroups (keyOf sol) sol gs) acc).map
        SolutionGroup.solutions).flatten.Perm
      ((acc.map SolutionGroup.solutions).flatten ++ sols) := by
  intro sols
  induction sols with
  | nil =>
    intro acc h1 h2 h3
    exact ⟨h1, h2, h3, by simp, by simp⟩
  | cons s rest ih =>
    intro acc h1 h2 h3
    have step1 := addToGroups_preserves_key keyOf h1 (rfl : keyOf s = keyOf s)
    have step2 := @addToGroups_pairwise_ne α _ (keyOf s) s acc h2
    have step3 := @addToGroups_sol_ne_nil α _ (keyOf s) s acc h3
    obtain ⟨r1, r2, r3, r4, r5⟩ := ih (addToGroups (keyOf s) s acc) step1 step2 step3
    rw [List.foldl_cons]
    refine ⟨r1, r2, r3, ?_, ?_⟩
    · rw [r4, addToGroups_count_sum]
      simp
      omega
    · refine (r5.trans ((addToGroups_flatten_perm (keyOf s) s acc).append_right
        rest)).trans (List.Perm.of_eq ?_)
      simp

lemma buildGroups_key (keyOf : List α → List Fb) (sols : List (List α)) :
    ∀ g ∈ buildGroups keyOf sols, ∀ c ∈ g.solutions, keyOf c = g.feedback :=
  (foldl_addToGroups_invariants keyOf sols [] (by simp) (by simp) (by simp)).1

lemma buildGroups_pairwise_ne (keyOf : List α → List Fb) (sols : List (List α)) :
    (buildGroups keyOf sols).Pairwise (fun g g' => g.feedback ≠ g'.feedback) :=
  (foldl_addToGroups_invariants keyOf sols [] (by simp) (by simp) (by simp)).2.1

lemma buildGroups_sol_ne_nil (keyOf : List α → List Fb) (sols : List (List α)) :
    ∀ g ∈ buildGroups keyOf sols,
      g.solutions ≠ [] ∧ g.count = g.solutions.length :=
  (foldl_addToGroups_invariants keyOf sols [] (by simp) (by simp) (by simp)).2.2.1

lemma buildGroups_count_sum (keyOf : List α → List Fb) (sols : List (List α)) :
    ((buildGroups keyOf sols).map SolutionGroup.count).sum = sols.length := by
  have h :=
    (foldl_addToGroups_invariants keyOf sols [] (by simp) (by simp) (by simp)).2.2.2.1
  simpa using h

lemma buildGroups_flatten_perm (keyOf : List α → List Fb) (sols : List (List α)) :
    ((buildGroups keyOf sols).map SolutionGroup.solutions).flatten.Perm sols := by
  have h :=
    (foldl_addToGroups_invariants keyOf sols [] (by simp) (by simp) (by simp)).2.2.2.2
  simpa using h

lemma buildGroups_ne_nil (keyOf : List α → List Fb) {sols : List (List α)}
    (h : sols ≠ []) : buildGroups keyOf sols ≠ [] := by
  intro hnil
  apply h
  have hperm := buildGroups_flatten_perm keyOf sols
  rw [hnil] at hperm
  simp at hperm
  exact hperm

lemma groupSolutionsByFeedback_perm (solutions : List (List α)) (guess : List α) :
    (groupSolutionsByFeedback solutions guess).Perm
      (buildGroups (fun sol => sortFeedback (evaluateGuess guess sol)) solutions) :=
  List.perm_insertionSort _ _

lemma groupSolutionsByFeedback_sorted (solutions : List (List α)) (guess : List α) :
    (groupSolutionsByFeedback solutions guess).Pairwise countGE :=
  List.sorted_insertionSort _ _

/-! ### Claim theorems about partitioning and adversarial selection -/

/-- C6: for every solution set and guess, the buckets of
`groupSolutionsByFeedback` are pairwise disjoint, every candidate is
assigned to exactly one bucket (the concatenation of the buckets is a
permutation of the input), the bucket counts sum to the set's size, and
each bucket's count is the length of its member list. (The embedding is
purely functional, so the input solution list is not mutated by
construction.) -/
theorem groupSolutionsByFeedback_partitions (solutions : List (List α))
    (guess : List α) :
    ((groupSolutionsByFeedback solutions guess).map SolutionGroup.count).sum =
      solutions.length ∧
    ((groupSolutionsByFeedback solutions guess).map
        SolutionGroup.solutions).flatten.Perm solutions ∧
    (groupSolutionsByFeedback solutions guess).Pairwise
      (fun g g' => ∀ c, ¬(c ∈ g.solutions ∧ c ∈ g'.solutions)) ∧
    (∀ g ∈ groupSolutionsByFeedback solutions guess,
      g.count = g.solutions.length) := by
  have hperm := groupSolutionsByFeedback_perm solutions guess
  refine ⟨?_, ?_, ?_, ?_⟩
  · rw [(hperm.map SolutionGroup.count).sum_eq]
    exact buildGroups_count_sum _ solutions
  · exact ((hperm.map SolutionGroup.solutions).flatten).trans
      (buildGroups_flatten_perm _ solutions)
  · have hsym : ∀ {g g' : SolutionGroup α},
        (∀ c, ¬(c ∈ g.solutions ∧ c ∈ g'.solutions)) →
        (∀ c, ¬(c ∈ g'.solutions ∧ c ∈ g.solutions)) :=
      fun h c hc => h c ⟨hc.2, hc.1⟩
    rw [List.Perm.pairwise_iff hsym hperm]
    refine List.Pairwise.imp_of_mem ?_
      (buildGroups_pairwise_ne (fun sol => sortFeedback (evaluateGuess guess sol))
        solutions)
    intro g g' hg hg' hne c hc
    apply hne
    rw [← buildGroups_key _ solutions g hg c hc.1,
      ← buildGroups_key _ solutions g' hg' c hc.2]
  · intro g hg
    exact (buildGroups_sol_ne_nil _ solutions g (hperm.mem_iff.1 hg)).2

/-- On a non-empty solution set, `getEvilFeedback` returns the head bucket
of the count-descending-sorted partition, which has maximal count. -/
lemma getEvilFeedback_head (solutions : List (List α)) (guess : List α)
    (hne : solutions ≠ []) :
    ∃ g rest, groupSolutionsByFeedback solutions guess = g :: rest ∧
      getEvilFeedback solutions guess = (g.feedback, g.solutions) ∧
      ∀ g' ∈ groupSolutionsByFeedback solutions guess, g'.count ≤ g.count := by
  have hgr : groupSolutionsByFeedback solutions guess ≠ [] := by
    intro hnil
    apply buildGroups_ne_nil
      (fun sol => sortFeedback (evaluateGuess guess sol)) hne
    have hp := (groupSolutionsByFeedback_perm solutions guess).symm
    rw [hnil] at hp
    exact hp.eq_nil
  rcases hgl : groupSolutionsByFeedback solutions guess with _ | ⟨g, rest⟩
  · exact absurd hgl hgr
  refine ⟨g, rest, rfl, ?_, ?_⟩
  · rw [getEvilFeedback, hgl]
  · have hs := groupSolutionsByFeedback_sorted solutions guess
    rw [hgl, List.pairwise_cons] at hs
    intro g' hg'
    rcases List.mem_cons.1 hg' with hg' | hg'
    · rw [hg']
    · exact hs.1 g' hg'

/-- C1: for every non-empty solution set and guess, `getEvilFeedback`
returns the feedback of the first (maximal-count) bucket of
`groupSolutionsByFeedback` together with exactly that bucket's member
candidates; in particular, over the full `{R, G}` length-2 universe with
guess `RG`, it returns the `{correct: 1, incorrect: 1}` histogram with
remaining set `{RR, GG}`. -/
theorem getEvilFeedback_returns_largest_bucket :
    (∀ (solutions : List (List α)) (guess : List α), solutions ≠ [] →
      ∃ g rest, groupSolutionsByFeedback solutions guess = g :: rest ∧
        getEvilFeedback solutions guess = (g.feedback, g.solutions) ∧
        ∀ g' ∈ groupSolutionsByFeedback solutions guess, g'.count ≤ g.count) ∧
    getEvilFeedback universeRG [PegColor.red, PegColor.green] =
      ([Fb.correct, Fb.incorrect],
       [[PegColor.red, PegColor.red], [PegColor.green, PegColor.green]]) :=
  ⟨fun solutions guess hne => getEvilFeedback_head solutions guess hne,
   by decide⟩

/-- Witness for C1 at the `{R, G}` length-2 universe with guess `RG`. -/
theorem getEvilFeedback_returns_largest_bucket_witness :
    universeRG ≠ [] ∧
    (∃ g rest, groupSolutionsByFeedback universeRG
        [PegColor.red, PegColor.green] = g :: rest ∧
      getEvilFeedback universeRG [PegColor.red, PegColor.green] =
        (g.feedback, g.solutions) ∧
      ∀ g' ∈ groupSolutionsByFeedback universeRG [PegColor.red, PegColor.green],
        g'.count ≤ g.count) :=
  ⟨by decide, (getEvilFeedback_returns_largest_bucket (α := PegColor)).1
    universeRG [PegColor.red, PegColor.green] (by decide)⟩

/-- Counterexample to C7 as stated: on the empty solution set,
`getEvilFeedback` does not fail; it silently returns the defaulted
all-`incorrect` histogram of the guess's length with an empty remaining
set. -/
theorem getEvilFeedback_empty_counterexample :
    getEvilFeedback ([] : List (List PegColor)) [PegColor.red, PegColor.green] =
      ([Fb.incorrect, Fb.incorrect], []) := by
  decide

/-- C7 (amended): on the empty solution set `getEvilFeedback` returns the
defaulted all-`incorrect` histogram (length of the guess) with empty
remaining set, rather than failing; on every non-empty solution set the
returned histogram is genuinely producible — the returned remaining set is
non-empty and each of its members evaluates against the guess to exactly
the returned feedback. -/
theorem getEvilFeedback_empty_default_and_producible :
    (∀ guess : List α, getEvilFeedback ([] : List (List α)) guess =
      (List.replicate guess.length Fb.incorrect, [])) ∧
    (∀ (solutions : List (List α)) (guess : List α), solutions ≠ [] →
      (getEvilFeedback solutions guess).2 ≠ [] ∧
      ∀ c ∈ (getEvilFeedback solutions guess).2,
        sortFeedback (evaluateGuess guess c) = (getEvilFeedback solutions guess).1) := by
  constructor
  · intro guess
    rfl
  · intro solutions guess hne
    obtain ⟨g, rest, hgl, hev, -⟩ := getEvilFeedback_head solutions guess hne
    have hmem : g ∈ buildGroups
        (fun sol => sortFeedback (evaluateGuess guess sol)) solutions :=
      (groupSolutionsByFeedback_perm solutions guess).mem_iff.1
        (hgl ▸ List.mem_cons_self _ _)
    rw [hev]
    exact ⟨(buildGroups_sol_ne_nil _ solutions g hmem).1,
      fun c hc => buildGroups_key _ solutions g hmem c hc⟩

/-- Witness for the amended C7 at a concrete non-empty set. -/
theorem getEvilFeedback_empty_default_and_producible_witness :
    ([[PegColor.red]] : List (List PegColor)) ≠ [] ∧
    ((getEvilFeedback [[PegColor.red]] [PegColor.red]).2 ≠ [] ∧
      ∀ c ∈ (getEvilFeedback [[PegColor.red]] [PegColor.red]).2,
        sortFeedback (evaluateGuess [PegColor.red] c) =
          (getEvilFeedback [[PegColor.red]] [PegColor.red]).1) :=
  ⟨by decide, (getEvilFeedback_empty_default_and_producible (α := PegColor)).2
    [[PegColor.red]] [PegColor.red] (by decide)⟩

/-! ### Claim theorems about the solution service's filtering -/

/-- C5: for every solution set, guess and feedback of matching length,
`applyGuessAndFeedback` succeeds and removes exactly the candidates whose
evaluated histogram differs from the given feedback (a candidate remains
iff its per-value feedback counts equal the given feedback's counts),
returns the size of the resulting set, and never increases the set's
size. -/
theorem applyGuessAndFeedback_filters_exactly (s : SolutionService α)
    (guess : List α) (feedback : List Fb)
    (h1 : guess.length = s.codeLength) (h2 : feedback.length = s.codeLength) :
    ∃ (s' : SolutionService α) (n : Nat),
      applyGuessAndFeedback s guess feedback = some (s', n) ∧
      (∀ c, c ∈ s'.solutions ↔ c ∈ s.solutions ∧
        ∀ v, countFb v (evaluateGuess guess c) = countFb v feedback) ∧
      n = s'.solutions.length ∧
      s'.solutions.length ≤ s.solutions.length ∧
      s'.codeLength = s.codeLength := by
  rw [applyGuessAndFeedback, if_pos ⟨h1, h2⟩]
  refine ⟨_, _, rfl, ?_, rfl, List.length_filter_le _ _, rfl⟩
  intro c
  rw [List.mem_filter]
  constructor
  · rintro ⟨hmem, hfb⟩
    refine ⟨hmem, fun v => ?_⟩
    have := (areFeedbackEqual_iff _ _).1 hfb v
    rwa [(sortFeedback_perm feedback).count_eq] at this
  · rintro ⟨hmem, hfb⟩
    refine ⟨hmem, (areFeedbackEqual_iff _ _).2 fun v => ?_⟩
    rw [(sortFeedback_perm feedback).count_eq]
    exact hfb v

/-- Witness for C5: a two-candidate set over one peg. -/
theorem applyGuessAndFeedback_filters_exactly_witness :
    (([PegColor.red] : List PegColor).length =
      (⟨[[PegColor.red], [PegColor.blue]], 1⟩ : SolutionService PegColor).codeLength) ∧
    (([Fb.correct] : List Fb).length =
      (⟨[[PegColor.red], [PegColor.blue]], 1⟩ : SolutionService PegColor).codeLength) ∧
    ∃ (s' : SolutionService PegColor) (n : Nat),
      applyGuessAndFeedback (⟨[[PegColor.red], [PegColor.blue]], 1⟩ :
          SolutionService PegColor) [PegColor.red] [Fb.correct] = some (s', n) ∧
      (∀ c, c ∈ s'.solutions ↔
        c ∈ (⟨[[PegColor.red], [PegColor.blue]], 1⟩ :
          SolutionService PegColor).solutions ∧
        ∀ v, countFb v (evaluateGuess [PegColor.red] c) =
          countFb v [Fb.correct]) ∧
      n = s'.solutions.length ∧
      s'.solutions.length ≤ (⟨[[PegColor.red], [PegColor.blue]], 1⟩ :
          SolutionService PegColor).solutions.length ∧
      s'.codeLength = (⟨[[PegColor.red], [PegColor.blue]], 1⟩ :
          SolutionService PegColor).codeLength :=
  ⟨rfl, rfl, applyGuessAndFeedback_filters_exactly _ _ _ rfl rfl⟩

/-- C8: applying the same `(guess, feedback)` record a second time
immediately after a successful first application returns exactly the same
solution set and the same size (filtering is idempotent once the set is
consistent with the record). -/
theorem applyGuessAndFeedback_idempotent (s s1 : SolutionService α)
    (guess : List α) (feedback : List Fb) (n1 : Nat)
    (h : applyGuessAndFeedback s guess feedback = some (s1, n1)) :
    applyGuessAndFeedback s1 guess feedback = some (s1, n1) := by
  rw [applyGuessAndFeedback] at h
  split at h
  · rename_i hcond
    rw [Option.some_inj] at h
    have hs1 : s1 = ⟨s.solutions.filter (fun sol =>
        areFeedbackEqual (evaluateGuess guess sol) (sortFeedback feedback)),
        s.codeLength⟩ := (congrArg Prod.fst h).symm
    have hn1 : n1 = (s.solutions.filter (fun sol =>
        areFeedbackEqual (evaluateGuess guess sol)
          (sortFeedback feedback))).length := (congrArg Prod.snd h).symm
    subst hs1
    rw [applyGuessAndFeedback, if_pos hcond]
    rw [List.filter_filter]
    simp only [Bool.and_self]
    rw [hn1]
  · exact absurd h (by simp)

/-- Witness for C8: the two-candidate set from the C5 witness. -/
theorem applyGuessAndFeedback_idempotent_witness :
    applyGuessAndFeedback (⟨[[PegColor.red], [PegColor.blue]], 1⟩ :
        SolutionService PegColor) [PegColor.red] [Fb.correct] =
      some (⟨[[PegColor.red]], 1⟩, 1) ∧
    applyGuessAndFeedback (⟨[[PegColor.red]], 1⟩ : SolutionService PegColor)
        [PegColor.red] [Fb.correct] = some (⟨[[PegColor.red]], 1⟩, 1) :=
  ⟨by decide, applyGuessAndFeedback_idempotent
    ⟨[[PegColor.red], [PegColor.blue]], 1⟩ ⟨[[PegColor.red]], 1⟩
    [PegColor.red] [Fb.correct] 1 (by decide)⟩

/-! ### Claim theorems about the recommender -/

lemma lookupDist_le {m : Nat} {d : List (List Fb × Nat)}
    (h : ∀ kn ∈ d, kn.2 ≤ m) (fb : List Fb) : lookupDist fb d ≤ m := by
  induction d with
  | nil => exact Nat.zero_le m
  | cons kn rest ih =>
    rw [lookupDist]
    split
    · exact h kn (List.mem_cons_self _ _)
    · exact ih fun kn' hkn' => h kn' (List.mem_cons_of_mem _ hkn')

lemma bumpDist_entries_le {m : Nat} {d : List (List Fb × Nat)} {fb : List Fb}
    (h : ∀ kn ∈ d, kn.2 ≤ m) : ∀ kn ∈ bumpDist fb d, kn.2 ≤ m + 1 := by
  induction d with
  | nil =>
    intro kn hkn
    simp [bumpDist] at hkn
    subst hkn
    omega
  | cons kn0 rest ih =>
    intro kn hkn
    rcases kn0 with ⟨k0, n0⟩
    rw [bumpDist] at hkn
    split at hkn
    · rcases List.mem_cons.1 hkn with hkn | hkn
      · subst hkn
        have := h (k0, n0) (List.mem_cons_self _ _)
        simp at this ⊢
        omega
      · have := h kn (List.mem_cons_of_mem _ hkn)
        omega
    · rcases List.mem_cons.1 hkn with hkn | hkn
      · subst hkn
        have := h (k0, n0) (List.mem_cons_self _ _)
        simp at this ⊢
        omega
      · exact ih (fun kn' hkn' => h kn' (List.mem_cons_of_mem _ hkn')) kn hkn

lemma foldl_distStep_bound (cg : List PegColor) :
    ∀ (sols : List (List PegColor)) (acc : List (List Fb × Nat) × Nat) (m : Nat),
    (∀ kn ∈ acc.1, kn.2 ≤ m) → acc.2 ≤ m →
    (∀ kn ∈ (sols.foldl (distStep cg) acc).1, kn.2 ≤ m + sols.length) ∧
    (sols.foldl (distStep cg) acc).2 ≤ m + sols.length := by
  intro sols
  induction sols with
  | nil =>
    intro acc m h1 h2
    refine ⟨fun kn hkn => ?_, ?_⟩
    · simpa using h1 kn hkn
    · simpa using h2
  | cons s rest ih =>
    intro acc m h1 h2
    rw [List.foldl_cons]
    have hstep1 : ∀ kn ∈ (distStep cg acc s).1, kn.2 ≤ m + 1 := by
      intro kn hkn
      exact bumpDist_entries_le h1 kn hkn
    have hstep2 : (distStep cg acc s).2 ≤ m + 1 := by
      rw [distStep]
      refine max_le (Nat.le_succ_of_le h2) ?_
      exact lookupDist_le (bumpDist_entries_le h1) _
    have := ih (distStep cg acc s) (m + 1) hstep1 hstep2
    simpa [Nat.add_assoc, Nat.add_comm 1 rest.length] using this

lemma evalCandidate_maxGroupSize_le (sols : List (List PegColor))
    (cg : List PegColor) : (evalCandidate sols cg).maxGroupSize ≤ sols.length := by
  have := (foldl_distStep_bound cg sols ([], 0) 0 (by simp) (Nat.le_refl 0)).2
  simpa [evalCandidate] using this

/-- Counterexample to C9 as stated: on the empty solution set,
`findOptimalGuesses` returns hardcoded default entries whose
`maxGroupSize` (256) exceeds the set's size (0). -/
theorem findOptimalGuesses_empty_counterexample :
    ¬ (∀ e ∈ findOptimalGuesses ([] : List (List PegColor)) 5,
        e.maxGroupSize ≤ ([] : List (List PegColor)).length) := by
  decide

/-- C9 (amended): for every *non-empty* solution set given to
`findOptimalGuesses`, every entry of the returned ranked list has
`maxGroupSize` at most the size of that solution set at the time of the
call. (On the empty set the hardcoded default entries report 256.) -/
theorem findOptimalGuesses_worstCase_le (possibleSolutions : List (List PegColor))
    (maxResults : Nat) (h : possibleSolutions ≠ []) :
    ∀ e ∈ findOptimalGuesses possibleSolutions maxResults,
      e.maxGroupSize ≤ possibleSolutions.length := by
  intro e he
  rw [findOptimalGuesses,
    if_neg (fun hlen => h (List.length_eq_zero.1 hlen))] at he
  have he2 := List.take_subset _ _ he
  have he3 := (List.perm_insertionSort maxSizeLE _).mem_iff.1 he2
  rcases List.mem_map.1 he3 with ⟨g, _, rfl⟩
  exact evalCandidate_maxGroupSize_le possibleSolutions g

/-- Witness for the amended C9 at the `{R, G}` length-2 universe. -/
theorem findOptimalGuesses_worstCase_le_witness :
    universeRG ≠ [] ∧
    ∀ e ∈ findOptimalGuesses universeRG 5, e.maxGroupSize ≤ universeRG.length :=
  ⟨by decide, findOptimalGuesses_worstCase_le universeRG 5 (by decide)⟩

/-! ### The series-processing bug (C2) -/

/-- C2 (code bug): `processGuessSeries` computes each round's feedback
patterns from the service's stored solutions (`this.solutions`), which do
not change during the loop, instead of from the progressively-narrowed
`currentSolutions`. Replaying the series `RG, RR` with responses
`{c,i}, {i,i}` from the full `{R, G}` length-2 universe therefore leaves
an empty stored solution set, while partitioning the *current* set by each
round's guess and keeping the largest bucket (the behavior the
specification requires) leaves `{RR}`. -/
theorem processGuessSeries_uses_stale_partition :
    processGuessSeries (⟨universeRG, 2⟩ : SolutionService PegColor)
        [[PegColor.red, PegColor.green], [PegColor.red, PegColor.red]]
        [[Fb.correct, Fb.incorrect], [Fb.incorrect, Fb.incorrect]] =
      some (⟨[], 2⟩,
        [[Fb.correct, Fb.incorrect], [Fb.correct, Fb.incorrect]]) ∧
    specLargestBucketReplay universeRG
        [[PegColor.red, PegColor.green], [PegColor.red, PegColor.red]] =
      [[PegColor.red, PegColor.red]] ∧
    ([] : List (List PegColor)) ≠ [[PegColor.red, PegColor.red]] :=
  ⟨by decide, by decide, by decide⟩

end Mastermind
